import Mathlib

/-!
# Verification of the SCD2 load stage (`src/pipeline/load.py`)

A shallow embedding of the load utilities of the repository's pipeline:
`_diff_condition`, the staging performed inside `scd2_upsert` (projection,
`drop_duplicates` on the natural key, tracked-column widening, versioning
stamps), the close-out `UPDATE` and the insert `INSERT ... SELECT`, together
with `replace_dimension_snapshot` and `append_fact`.

Modelling conventions:
* An SQL value already cast to text is `Val := Option String`; `none` is SQL
  `NULL` (and also a missing pandas cell, which pandas renders as `NaN`/`NA`
  and `::text` turns into `NULL`).
* A dataframe row is an association list from column name to value; a
  dataframe carries its column list.
* Timestamps are abstract `Nat` instants.  `pd.Timestamp.utcnow()` taken at
  staging time and the database `NOW()` of the close-out `UPDATE` are two
  distinct parameters (`stageTime`, `loadTime`) because the code uses two
  different clocks.
* Connector traffic (`run_query`, `load_dataframe`) and logger warnings are
  recorded in a `LoadResult` trace so that no-op / error claims can speak
  about the absence of warehouse calls.
-/

/-- An SQL value cast to text; `none` is `NULL`. -/
abbrev Val := Option String

/-- A table/dataframe row: bindings from column name to value. -/
abbrev Rw := List (String × Val)

/-- Value of column `c` in row `r`; a missing column and a `NULL` cell both
give `none` (pandas stores a missing cell as `NA`, which reaches SQL as
`NULL`). -/
def getCol (r : Rw) (c : String) : Val := (r.lookup c).join

/-- A pandas `DataFrame`: declared columns plus rows. -/
structure DataFrame where
  cols : List String
  rows : List Rw
deriving Repr, DecidableEq

/-- A persisted record of a versioned dimension table: the natural-key value,
the remaining data columns, and the three versioning attributes
`effective_from` / `effective_to` / `is_current` (load.py lines 106-108). -/
structure DimRow where
  key : Val
  attrs : Rw
  effective_from : Nat
  effective_to : Option Nat
  is_current : Bool
deriving Repr, DecidableEq

/-- SQL equality `dim.k = s.k` in a `WHERE`/`ON` clause: true only when both
sides are non-`NULL` and equal (`NULL = NULL` is not true in SQL). -/
def keyEq : Val → Val → Bool
  | some a, some b => a == b
  | _, _ => false

/-- `COALESCE(col::text, '')` (load.py line 32). -/
def coalesceText (v : Val) : String := v.getD ""

/-- `_diff_condition` (load.py lines 29-35): the `OR` of
`COALESCE(l.col::text,'') IS DISTINCT FROM COALESCE(r.col::text,'')` over the
tracked columns, as a predicate on the two rows. -/
def diffCondition (tracked : List String) (l r : Rw) : Bool :=
  tracked.any (fun c => coalesceText (getCol l c) != coalesceText (getCol r c))

/-- The full-row view of a persisted record as SQL sees it: the natural-key
column, the versioning columns rendered as text, then the data columns. -/
def dimRowView (kname : String) (d : DimRow) : Rw :=
  (kname, d.key) ::
    ("effective_from", some (toString d.effective_from)) ::
      ("effective_to", d.effective_to.map toString) ::
        ("is_current", some (toString d.is_current)) :: d.attrs

/-- `_diff_condition` applied to two full records (the `dim`/`s` aliases of the
close-out and insert statements). -/
def rowDiff (kname : String) (tracked : List String) (d s : DimRow) : Bool :=
  diffCondition tracked (dimRowView kname d) (dimRowView kname s)

/-- `df[columns]` (load.py lines 92-93).  `if columns:` is false both for
`None` and for an empty list; a listed column absent from the dataframe makes
pandas raise a `KeyError`. -/
def projectDf (columns : Option (List String)) (df : DataFrame) :
    Except String DataFrame :=
  match columns with
  | none => .ok df
  | some cs =>
    if cs.isEmpty then .ok df
    else if cs.all (fun c => df.cols.contains c) then
      .ok ⟨cs, df.rows.map (fun r => cs.map (fun c => (c, getCol r c)))⟩
    else .error "KeyError: columns not in index"

/-- `drop_duplicates(subset=[natural_key])` (load.py line 94) with pandas'
default `keep` policy: the first row for each key value is kept, later rows
with an already-seen key value are dropped; pandas treats `NaN` keys as equal
to each other. -/
def dedupFirstAux (kname : String) (seen : List Val) : List Rw → List Rw
  | [] => []
  | r :: rs =>
    if seen.contains (getCol r kname) then dedupFirstAux kname seen rs
    else r :: dedupFirstAux kname (getCol r kname :: seen) rs

/-- `drop_duplicates(subset=[natural_key])` on a row list. -/
def dedupFirst (kname : String) (rows : List Rw) : List Rw :=
  dedupFirstAux kname [] rows

/-- The three versioning column names. -/
def versioningCols : List String := ["effective_from", "effective_to", "is_current"]

/-- Lines 97-102: when `tracked_columns` is empty, derive it as every staged
column except the natural key and the versioning attributes. -/
def deriveTracked (kname : String) (tracked : List String) (cols : List String) :
    List String :=
  if tracked.isEmpty then
    cols.filter (fun c => c != kname && !versioningCols.contains c)
  else tracked

/-- Lines 103-105: every tracked column missing from the staged frame is
injected (with `NA` cells), widening the column list. -/
def widenCols (cols tracked1 : List String) : List String :=
  cols ++ tracked1.filter (fun c => !cols.contains c)

/-- The staged data columns: everything except the natural key and the
versioning attributes (those become dedicated `DimRow` fields, and lines
106-108 overwrite any incoming versioning column anyway). -/
def stagedDataCols (kname : String) (cols : List String) : List String :=
  cols.filter (fun c => c != kname && !versioningCols.contains c)

/-- One staged record (lines 106-108): key and data cells from the dataframe
row, `effective_from` = the run timestamp taken at staging time,
`effective_to` unset, `is_current` true. -/
def mkStagedRow (kname : String) (dataCols : List String) (stageTime : Nat)
    (r : Rw) : DimRow :=
  { key := getCol r kname
    attrs := dataCols.map (fun c => (c, getCol r c))
    effective_from := stageTime
    effective_to := none
    is_current := true }

/-- Action of the close-out `UPDATE` on one target row (lines 114-126): a row
that is current, key-matches some staged row and differs on a tracked column
gets `effective_to = NOW()` (the load-time clock) and `is_current = FALSE`. -/
def closeFn (kname : String) (tracked : List String) (loadTime : Nat)
    (staged : List DimRow) (d : DimRow) : DimRow :=
  if d.is_current && staged.any (fun s => keyEq d.key s.key && rowDiff kname tracked d s)
  then { d with effective_to := some loadTime, is_current := false }
  else d

/-- The close-out `UPDATE` over the whole target table; an `UPDATE ... FROM`
touches a row once however many staged rows match. -/
def closeOut (kname : String) (tracked : List String) (loadTime : Nat)
    (staged : List DimRow) (target : List DimRow) : List DimRow :=
  target.map (closeFn kname tracked loadTime staged)

/-- The rows of `t` that are current and key-match staged row `s` (the
`LEFT JOIN ... ON dim.k = s.k AND dim.is_current = TRUE` of lines 138-140). -/
def currentMatches (t : List DimRow) (s : DimRow) : List DimRow :=
  t.filter (fun d => d.is_current && keyEq d.key s.key)

/-- The `changed` CTE of the insert statement (lines 135-143): a staged row
joined against the current target rows; with no match the left join yields a
single all-`NULL` right side, so `dim.k IS NULL` keeps one copy, otherwise one
copy per differing current match survives the `WHERE`. -/
def changedRows (kname : String) (tracked : List String)
    (t staged : List DimRow) : List DimRow :=
  staged.flatMap (fun s =>
    let ms := currentMatches t s
    if ms.isEmpty then [s]
    else (ms.filter (fun d => rowDiff kname tracked d s)).map (fun _ => s))

/-- Line 128: the insert column list drops any column named `host_key` or
`listing_key` (the surrogate keys), whatever the target table is. -/
def stripSurrogates (r : Rw) : Rw :=
  r.filter (fun p => p.1 != "host_key" && p.1 != "listing_key")

/-- A staged record as the insert statement writes it: surrogate-key columns
removed from the data cells.  (The natural keys of this repository, `host_id`
and `listing_id`, are distinct from the surrogate names, so the key survives
the filter; the versioning columns survive it too.) -/
def stripRow (d : DimRow) : DimRow := { d with attrs := stripSurrogates d.attrs }

/-- The staged table written by `_stage_dataframe` for a (projected) frame
`pdf`: dedup by the natural key, tracked-column derivation and widening, then
the versioning stamps of lines 106-108. -/
def stagedOf (kname : String) (tracked : List String) (stageTime : Nat)
    (pdf : DataFrame) : List DimRow :=
  (dedupFirst kname pdf.rows).map
    (mkStagedRow kname
      (stagedDataCols kname (widenCols pdf.cols (deriveTracked kname tracked pdf.cols)))
      stageTime)

/-- One warehouse-connector call issued by the load stage. -/
inductive Call where
  | createSchema
  | stageLoad (rows : List DimRow)
  | closeOutUpdate
  | insertQuery
  | truncateTable
  | appendLoad
deriving Repr, DecidableEq

instance {ε α : Type} [DecidableEq ε] [DecidableEq α] : DecidableEq (Except ε α) := fun
  | .error e, .error f =>
    if h : e = f then .isTrue (by rw [h])
    else .isFalse (by intro hc; cases hc; exact h rfl)
  | .error _, .ok _ => .isFalse (by intro hc; cases hc)
  | .ok _, .error _ => .isFalse (by intro hc; cases hc)
  | .ok a, .ok b =>
    if h : a = b then .isTrue (by rw [h])
    else .isFalse (by intro hc; cases hc; exact h rfl)

/-- Outcome of a load routine: the connector calls in order, the number of
logger warnings, and either an error or the final target table. -/
structure LoadResult (α : Type) where
  calls : List Call
  warnings : Nat
  outcome : Except String α
deriving Repr, DecidableEq

/-- `scd2_upsert` (load.py lines 54-147).  Empty input returns with a warning
and no connector call (lines 82-84).  Then: optional projection, dedup by the
natural key (pandas raises a `KeyError` inside `drop_duplicates` when the key
column is absent, which subsumes the explicit check of lines 95-96 — both
happen before any connector call), tracked-column derivation and widening,
versioning stamps, staging write, close-out `UPDATE`, insert
`INSERT ... SELECT`. -/
def scd2_upsert (kname : String) (tracked : List String)
    (columns : Option (List String)) (df : DataFrame)
    (stageTime loadTime : Nat) (target : List DimRow) :
    LoadResult (List DimRow) :=
  if df.rows.isEmpty then
    { calls := [], warnings := 1, outcome := .ok target }
  else
    match projectDf columns df with
    | .error e => { calls := [], warnings := 0, outcome := .error e }
    | .ok pdf =>
      if pdf.cols.contains kname then
        let tracked1 := deriveTracked kname tracked pdf.cols
        let staged := stagedOf kname tracked stageTime pdf
        let t1 := closeOut kname tracked1 loadTime staged target
        let ins := (changedRows kname tracked1 t1 staged).map stripRow
        { calls := [.createSchema, .stageLoad staged, .closeOutUpdate, .insertQuery]
          warnings := 0
          outcome := .ok (t1 ++ ins) }
      else
        { calls := [], warnings := 0
          outcome := .error ("KeyError: " ++ kname) }

/-- `replace_dimension_snapshot` (load.py lines 150-170): warn-and-skip on
empty input, otherwise `TRUNCATE ... RESTART IDENTITY` then a bulk append of
the candidate rows, so the table afterwards holds exactly the candidate. -/
def replace_dimension_snapshot (df : DataFrame) (table : List Rw) :
    LoadResult (List Rw) :=
  if df.rows.isEmpty then
    { calls := [], warnings := 1, outcome := .ok table }
  else
    { calls := [.truncateTable, .appendLoad], warnings := 0, outcome := .ok df.rows }

/-- `append_fact` (load.py lines 173-190): warn-and-skip on empty input,
otherwise a single bulk append. -/
def append_fact (df : DataFrame) (table : List Rw) : LoadResult (List Rw) :=
  if df.rows.isEmpty then
    { calls := [], warnings := 1, outcome := .ok table }
  else
    { calls := [.appendLoad], warnings := 0, outcome := .ok (table ++ df.rows) }

/-- No two current records share a (non-`NULL`) natural-key value. -/
def NoTwoCurrent (t : List DimRow) : Prop :=
  t.Pairwise (fun a b => a.is_current = true → b.is_current = true →
    keyEq a.key b.key = false)

/-- A current record has `effective_to` unset; a non-current record has it
set. -/
def FlagsConsistent (t : List DimRow) : Prop :=
  ∀ d ∈ t, (d.is_current = true → d.effective_to = none) ∧
    (d.is_current = false → d.effective_to ≠ none)

/-- The SCD2 table invariant: per natural key at most one current record, the
current record open-ended, every closed record stamped. -/
def Scd2Invariant (t : List DimRow) : Prop := NoTwoCurrent t ∧ FlagsConsistent t

instance (t : List DimRow) : Decidable (NoTwoCurrent t) := by
  unfold NoTwoCurrent; infer_instance

instance (t : List DimRow) : Decidable (FlagsConsistent t) := by
  unfold FlagsConsistent; infer_instance

instance (t : List DimRow) : Decidable (Scd2Invariant t) := by
  unfold Scd2Invariant; infer_instance

/-! ## Basic lemmas about values, columns and rows -/

theorem eq_of_keyEq {a b : Val} (h : keyEq a b = true) : a = b := by
  cases a <;> cases b <;> simp_all [keyEq]

theorem isSome_of_keyEq {a b : Val} (h : keyEq a b = true) : ∃ x, a = some x := by
  cases a <;> cases b <;> simp_all [keyEq]

theorem keyEq_some_self (x : String) : keyEq (some x) (some x) = true := by
  simp [keyEq]

theorem getCol_nil (c : String) : getCol [] c = none := rfl

theorem getCol_cons (k : String) (v : Val) (r : Rw) (c : String) :
    getCol ((k, v) :: r) c = if c == k then v else getCol r c := by
  simp only [getCol, List.lookup_cons]
  by_cases h : c == k <;> simp [h]

theorem getCol_map_cols (cols : List String) (r : Rw) (c : String) :
    getCol (cols.map (fun c2 => (c2, getCol r c2))) c =
      if cols.contains c then getCol r c else none := by
  induction cols with
  | nil => simp [getCol]
  | cons a l ih =>
    simp only [List.map_cons, getCol_cons, List.contains_cons]
    by_cases h : c == a
    · have hca : c = a := by simpa using h
      simp [h, hca]
    · simp [h, ih]

theorem getCol_eq_none_of_names (r : Rw) (c : String)
    (h : ∀ p ∈ r, p.1 ≠ c) : getCol r c = none := by
  induction r with
  | nil => rfl
  | cons p l ih =>
    obtain ⟨k, v⟩ := p
    have hk : k ≠ c := h (k, v) (List.mem_cons_self _ _)
    have hck : (c == k) = false := by
      simp only [beq_eq_false_iff_ne]; exact fun hc => hk hc.symm
    rw [getCol_cons, hck]
    · simp only [Bool.false_eq_true, if_false]
      exact ih (fun p hp => h p (List.mem_cons_of_mem _ hp))

theorem getCol_stripSurrogates (r : Rw) (c : String)
    (h1 : c ≠ "host_key") (h2 : c ≠ "listing_key") :
    getCol (stripSurrogates r) c = getCol r c := by
  induction r with
  | nil => rfl
  | cons p l ih =>
    obtain ⟨k, v⟩ := p
    simp only [stripSurrogates, List.filter_cons]
    by_cases hkeep : (k != "host_key" && k != "listing_key") = true
    · rw [if_pos hkeep]
      rw [getCol_cons, getCol_cons]
      by_cases hck : c == k
      · simp [hck]
      · simp only [hck, Bool.false_eq_true, if_false]
        exact ih
    · rw [if_neg hkeep, getCol_cons]
      have hk : k = "host_key" ∨ k = "listing_key" := by
        by_contra hne
        push_neg at hne
        exact hkeep (by simp [bne_iff_ne, hne.1, hne.2])
      have hck : (c == k) = false := by
        simp only [beq_eq_false_iff_ne]
        rcases hk with rfl | rfl <;> assumption
      rw [hck]
      simp only [Bool.false_eq_true, if_false]
      exact ih

theorem lookup_stripSurrogates_of_removed (r : Rw) (c : String)
    (h : c = "host_key" ∨ c = "listing_key") :
    (stripSurrogates r).lookup c = none := by
  induction r with
  | nil => rfl
  | cons p l ih =>
    obtain ⟨k, v⟩ := p
    simp only [stripSurrogates, List.filter_cons] at *
    by_cases hkeep : (k != "host_key" && k != "listing_key") = true
    · rw [if_pos hkeep, List.lookup_cons]
      have hk : (c == k) = false := by
        simp only [Bool.and_eq_true, bne_iff_ne, ne_eq] at hkeep
        simp only [beq_eq_false_iff_ne]
        rcases h with rfl | rfl
        · exact fun hc => hkeep.1 hc.symm
        · exact fun hc => hkeep.2 hc.symm
      simp [hk, ih]
    · rw [if_neg hkeep]
      exact ih

theorem getCol_stripSurrogates_of_removed (r : Rw) (c : String)
    (h : c = "host_key" ∨ c = "listing_key") :
    getCol (stripSurrogates r) c = none := by
  simp [getCol, lookup_stripSurrogates_of_removed r c h]

/-! ## Deduplication lemmas -/

theorem dedupFirstAux_subset (kname : String) :
    ∀ (rows : List Rw) (seen : List Val) (r : Rw),
      r ∈ dedupFirstAux kname seen rows → r ∈ rows
  | [], _, _, h => by simp [dedupFirstAux] at h
  | r0 :: rs, seen, r, h => by
    unfold dedupFirstAux at h
    by_cases hc : seen.contains (getCol r0 kname) = true
    · rw [if_pos hc] at h
      exact List.mem_cons_of_mem _ (dedupFirstAux_subset kname rs seen r h)
    · rw [if_neg hc] at h
      rcases List.mem_cons.1 h with rfl | h
      · exact List.mem_cons_self _ _
      · exact List.mem_cons_of_mem _ (dedupFirstAux_subset kname rs _ r h)

theorem dedupFirstAux_spec (kname : String) :
    ∀ (rows : List Rw) (seen : List Val),
      (∀ r ∈ dedupFirstAux kname seen rows,
        seen.contains (getCol r kname) = false) ∧
      (dedupFirstAux kname seen rows).Pairwise
        (fun a b => getCol a kname ≠ getCol b kname)
  | [], seen => by constructor <;> simp [dedupFirstAux]
  | r0 :: rs, seen => by
    unfold dedupFirstAux
    by_cases hc : seen.contains (getCol r0 kname) = true
    · rw [if_pos hc]
      exact dedupFirstAux_spec kname rs seen
    · rw [if_neg hc]
      have ih := dedupFirstAux_spec kname rs (getCol r0 kname :: seen)
      constructor
      · intro r hr
        rcases List.mem_cons.1 hr with rfl | hr
        · simpa using hc
        · have := ih.1 r hr
          simp only [List.contains_cons, Bool.or_eq_false_iff] at this
          exact this.2
      · refine List.pairwise_cons.2 ⟨?_, ih.2⟩
        intro r hr
        have := ih.1 r hr
        simp only [List.contains_cons, Bool.or_eq_false_iff, beq_eq_false_iff_ne,
          ne_eq] at this
        exact fun hk => this.1 (hk ▸ rfl)

theorem dedupFirst_subset (kname : String) (rows : List Rw) (r : Rw)
    (h : r ∈ dedupFirst kname rows) : r ∈ rows :=
  dedupFirstAux_subset kname rows [] r h

theorem dedupFirst_pairwise (kname : String) (rows : List Rw) :
    (dedupFirst kname rows).Pairwise (fun a b => getCol a kname ≠ getCol b kname) :=
  (dedupFirstAux_spec kname rows []).2

/-! ## Staged-table lemmas -/

theorem stagedOf_pairwise_keys (kname : String) (tracked : List String)
    (st : Nat) (pdf : DataFrame) :
    (stagedOf kname tracked st pdf).Pairwise (fun a b => a.key ≠ b.key) := by
  unfold stagedOf
  refine List.Pairwise.map _ ?_ (dedupFirst_pairwise kname pdf.rows)
  intro a b hab hk
  exact hab hk

theorem stagedOf_mem (kname : String) (tracked : List String) (st : Nat)
    (pdf : DataFrame) (s : DimRow) (hs : s ∈ stagedOf kname tracked st pdf) :
    ∃ r ∈ dedupFirst kname pdf.rows,
      s = mkStagedRow kname
        (stagedDataCols kname (widenCols pdf.cols (deriveTracked kname tracked pdf.cols)))
        st r := by
  unfold stagedOf at hs
  rcases List.mem_map.1 hs with ⟨r, hr, rfl⟩
  exact ⟨r, hr, rfl⟩

theorem mkStagedRow_flags (kname : String) (dataCols : List String) (st : Nat)
    (r : Rw) :
    (mkStagedRow kname dataCols st r).is_current = true ∧
      (mkStagedRow kname dataCols st r).effective_to = none ∧
      (mkStagedRow kname dataCols st r).effective_from = st ∧
      (mkStagedRow kname dataCols st r).key = getCol r kname :=
  ⟨rfl, rfl, rfl, rfl⟩

/-! ## Close-out lemmas -/

theorem closeFn_key (kname : String) (tr : List String) (lt : Nat)
    (staged : List DimRow) (d : DimRow) :
    (closeFn kname tr lt staged d).key = d.key := by
  unfold closeFn; split <;> rfl

theorem closeFn_current_no_match {kname : String} {tr : List String} {lt : Nat}
    {staged : List DimRow} {d : DimRow}
    (h : (closeFn kname tr lt staged d).is_current = true) :
    closeFn kname tr lt staged d = d ∧ d.is_current = true ∧
      ∀ s ∈ staged, keyEq d.key s.key = true → rowDiff kname tr d s = false := by
  unfold closeFn at h ⊢
  by_cases hc : (d.is_current &&
      staged.any fun s => keyEq d.key s.key && rowDiff kname tr d s) = true
  · rw [if_pos hc] at h
    simp at h
  · rw [if_neg hc]
    rw [if_neg hc] at h
    refine ⟨rfl, h, ?_⟩
    intro s hs hk
    rw [h, Bool.true_and] at hc
    have hany : (staged.any fun s => keyEq d.key s.key && rowDiff kname tr d s) = false := by
      simpa using hc
    have := List.any_eq_false.1 hany s hs
    rw [hk, Bool.true_and] at this
    simpa using this

theorem closeFn_cases (kname : String) (tr : List String) (lt : Nat)
    (staged : List DimRow) (d : DimRow) :
    closeFn kname tr lt staged d = d ∨
      closeFn kname tr lt staged d =
        { d with effective_to := some lt, is_current := false } := by
  unfold closeFn; split
  · right; rfl
  · left; rfl

theorem closeOut_mem {kname : String} {tr : List String} {lt : Nat}
    {staged target : List DimRow} {d : DimRow}
    (h : d ∈ closeOut kname tr lt staged target) :
    ∃ d0 ∈ target, d = closeFn kname tr lt staged d0 := by
  unfold closeOut at h
  rcases List.mem_map.1 h with ⟨d0, hd0, rfl⟩
  exact ⟨d0, hd0, rfl⟩

/-- A row still current after the close-out step was already in the target,
was untouched, and differs from no key-matching staged row. -/
theorem closeOut_current {kname : String} {tr : List String} {lt : Nat}
    {staged target : List DimRow} {d : DimRow}
    (h : d ∈ closeOut kname tr lt staged target) (hcur : d.is_current = true) :
    d ∈ target ∧ ∀ s ∈ staged, keyEq d.key s.key = true →
      rowDiff kname tr d s = false := by
  rcases closeOut_mem h with ⟨d0, hd0, rfl⟩
  rcases closeFn_current_no_match hcur with ⟨heq, _, hnd⟩
  rw [heq]
  exact ⟨hd0, hnd⟩

/-! ## The insert step after the close-out step -/

theorem flatMap_eq_filter {α : Type} (f : α → List α) (p : α → Bool) :
    ∀ (l : List α), (∀ x ∈ l, f x = if p x then [x] else []) →
      l.flatMap f = l.filter p
  | [], _ => rfl
  | a :: t, h => by
    rw [List.flatMap_cons, h a (List.mem_cons_self a t), List.filter_cons]
    have ih := flatMap_eq_filter f p t (fun x hx => h x (List.mem_cons_of_mem a hx))
    by_cases hp : p a = true
    · simp [hp, ih]
    · simp [hp, ih]

theorem stripRow_key (d : DimRow) : (stripRow d).key = d.key := rfl

theorem stripRow_is_current (d : DimRow) :
    (stripRow d).is_current = d.is_current := rfl

theorem stripRow_effective_to (d : DimRow) :
    (stripRow d).effective_to = d.effective_to := rfl

theorem currentMatches_closeOut_nodiff {kname : String} {tr : List String}
    {lt : Nat} {staged target : List DimRow} {s d : DimRow}
    (hs : s ∈ staged)
    (hd : d ∈ currentMatches (closeOut kname tr lt staged target) s) :
    rowDiff kname tr d s = false := by
  unfold currentMatches at hd
  rcases List.mem_filter.1 hd with ⟨hmem, hcond⟩
  simp only [Bool.and_eq_true] at hcond
  exact (closeOut_current hmem hcond.1).2 s hs hcond.2

/-- Because the close-out step precedes the insert step, every current row
that key-matches a staged row agrees with it on the tracked columns, so the
`changed` CTE keeps exactly the staged rows with no remaining current
counterpart. -/
theorem changedRows_closeOut (kname : String) (tr : List String) (lt : Nat)
    (staged target : List DimRow) :
    changedRows kname tr (closeOut kname tr lt staged target) staged =
      staged.filter
        (fun s => (currentMatches (closeOut kname tr lt staged target) s).isEmpty) := by
  unfold changedRows
  apply flatMap_eq_filter
  intro s hs
  by_cases hm : (currentMatches (closeOut kname tr lt staged target) s).isEmpty = true
  · simp only [hm, if_true]
  · have hfil : (currentMatches (closeOut kname tr lt staged target) s).filter
        (fun d => rowDiff kname tr d s) = [] := by
      rw [List.filter_eq_nil_iff]
      intro d hd
      simp [currentMatches_closeOut_nodiff hs hd]
    simp only [hm, if_false, hfil, List.map_nil, Bool.false_eq_true]

/-! ## Invariant preservation (core of the SCD2 engine) -/

theorem upsert_core_invariant (kname : String) (tr : List String) (lt : Nat)
    (staged target : List DimRow)
    (hkeys : staged.Pairwise (fun a b => a.key ≠ b.key))
    (hflags : ∀ s ∈ staged, s.is_current = true ∧ s.effective_to = none)
    (hinv : Scd2Invariant target) :
    Scd2Invariant
      (closeOut kname tr lt staged target ++
        (changedRows kname tr (closeOut kname tr lt staged target) staged).map
          stripRow) := by
  obtain ⟨hp, hf⟩ := hinv
  rw [changedRows_closeOut]
  constructor
  · rw [NoTwoCurrent, List.pairwise_append]
    refine ⟨?_, ?_, ?_⟩
    · unfold closeOut
      refine List.Pairwise.map _ ?_ hp
      intro a b hab ha hb
      have ha' := closeFn_current_no_match ha
      have hb' := closeFn_current_no_match hb
      rw [closeFn_key, closeFn_key]
      rw [ha'.1] at ha
      rw [hb'.1] at hb
      exact hab ha hb
    · refine List.Pairwise.map _ ?_ (List.Pairwise.filter _ hkeys)
      intro a b hab _ _
      rw [stripRow_key, stripRow_key]
      cases hk : keyEq a.key b.key
      · rfl
      · exact absurd (eq_of_keyEq hk) hab
    · intro a ha b hb hacur hbcur
      rcases List.mem_map.1 hb with ⟨s, hsf, rfl⟩
      rcases List.mem_filter.1 hsf with ⟨hsmem, hempty⟩
      rw [stripRow_key]
      cases hk : keyEq a.key s.key
      · rfl
      · exfalso
        have hmm : a ∈ currentMatches (closeOut kname tr lt staged target) s := by
          unfold currentMatches
          exact List.mem_filter.2 ⟨ha, by rw [hacur, hk]; rfl⟩
        rw [List.isEmpty_iff] at hempty
        rw [hempty] at hmm
        exact List.not_mem_nil a hmm
  · intro d hd
    rcases List.mem_append.1 hd with hd | hd
    · rcases closeOut_mem hd with ⟨d0, hd0, rfl⟩
      rcases closeFn_cases kname tr lt staged d0 with he | he
      · rw [he]; exact hf d0 hd0
      · rw [he]
        refine ⟨fun hcur => by simp at hcur, fun _ => by simp⟩
    · rcases List.mem_map.1 hd with ⟨s, hsf, rfl⟩
      have hfl := hflags s (List.mem_filter.1 hsf).1
      refine ⟨fun _ => ?_, fun hc => ?_⟩
      · rw [stripRow_effective_to]; exact hfl.2
      · rw [stripRow_is_current, hfl.1] at hc; cases hc

theorem stagedOf_flags (kname : String) (tracked : List String) (st : Nat)
    (pdf : DataFrame) :
    ∀ s ∈ stagedOf kname tracked st pdf,
      s.is_current = true ∧ s.effective_to = none := by
  intro s hs
  rcases stagedOf_mem kname tracked st pdf s hs with ⟨r, _, rfl⟩
  exact ⟨rfl, rfl⟩

/-- C1: `scd2_upsert` (close-out `UPDATE` then insert `INSERT`) maps a target
table satisfying the SCD2 invariant to one still satisfying it: per natural
key at most one current record, the current record with `effective_to` unset,
every other record closed with `effective_to` set. -/
theorem scd2_upsert_preserves_invariant (kname : String) (tracked : List String)
    (columns : Option (List String)) (df : DataFrame) (st lt : Nat)
    (target t' : List DimRow)
    (hres : (scd2_upsert kname tracked columns df st lt target).outcome =
      Except.ok t')
    (hinv : Scd2Invariant target) : Scd2Invariant t' := by
  unfold scd2_upsert at hres
  by_cases hemp : df.rows.isEmpty
  · rw [if_pos hemp] at hres
    cases hres
    exact hinv
  · rw [if_neg hemp] at hres
    cases hpr : projectDf columns df with
    | error e =>
      rw [hpr] at hres
      cases hres
    | ok pdf =>
      rw [hpr] at hres
      dsimp only at hres
      by_cases hk : pdf.cols.contains kname
      · rw [if_pos hk] at hres
        dsimp only at hres
        cases hres
        exact upsert_core_invariant kname (deriveTracked kname tracked pdf.cols) lt
          (stagedOf kname tracked st pdf) target
          (stagedOf_pairwise_keys kname tracked st pdf)
          (stagedOf_flags kname tracked st pdf) ⟨hinv.1, hinv.2⟩
      · rw [if_neg hk] at hres
        cases hres

/-- Witness for C1: a one-row snapshot changing an existing record; the
resulting table (closed old version plus open new version) satisfies the
invariant. -/
theorem scd2_upsert_preserves_invariant_witness :
    Scd2Invariant
      [⟨some "1", [("name", some "A")], 0, some 11, false⟩,
       ⟨some "1", [("name", some "B")], 10, none, true⟩] :=
  scd2_upsert_preserves_invariant "id" ["name"] none
    ⟨["id", "name"], [[("id", some "1"), ("name", some "B")]]⟩ 10 11
    [⟨some "1", [("name", some "A")], 0, none, true⟩]
    [⟨some "1", [("name", some "A")], 0, some 11, false⟩,
     ⟨some "1", [("name", some "B")], 10, none, true⟩]
    (by decide) (by decide)

/-- C5: the change predicate built by `_diff_condition` judges a row pair
changed iff some tracked column differs after normalising both sides to text
with null/missing mapped to the empty string; in particular a column that is
null on both sides never makes a pair count as changed. -/
theorem diffCondition_spec (tracked : List String) (l r : Rw) :
    (diffCondition tracked l r = true ↔
      ∃ c ∈ tracked, coalesceText (getCol l c) ≠ coalesceText (getCol r c)) ∧
    ((∀ c ∈ tracked, getCol l c = none ∧ getCol r c = none) →
      diffCondition tracked l r = false) := by
  constructor
  · unfold diffCondition
    rw [List.any_eq_true]
    constructor
    · rintro ⟨c, hc, h⟩
      exact ⟨c, hc, by simpa using h⟩
    · rintro ⟨c, hc, h⟩
      exact ⟨c, hc, by simpa using h⟩
  · intro h
    unfold diffCondition
    rw [List.any_eq_false]
    intro c hc
    rw [(h c hc).1, (h c hc).2]
    simp

/-- C7: all three loaders treat an empty candidate frame as a warned no-op:
no connector call is issued, one warning is logged, no error is raised and
the corresponding target table is untouched. -/
theorem empty_input_noop (kname : String) (tracked : List String)
    (columns : Option (List String)) (df dft dff : DataFrame)
    (st lt : Nat) (target : List DimRow) (tbl fct : List Rw)
    (h1 : df.rows = []) (h2 : dft.rows = []) (h3 : dff.rows = []) :
    scd2_upsert kname tracked columns df st lt target =
      { calls := [], warnings := 1, outcome := Except.ok target } ∧
    replace_dimension_snapshot dft tbl =
      { calls := [], warnings := 1, outcome := Except.ok tbl } ∧
    append_fact dff fct =
      { calls := [], warnings := 1, outcome := Except.ok fct } := by
  refine ⟨?_, ?_, ?_⟩ <;>
    simp [scd2_upsert, replace_dimension_snapshot, append_fact, h1, h2, h3]

/-- Witness for C7 at concrete empty frames. -/
theorem empty_input_noop_witness :
    scd2_upsert "id" ["name"] none (⟨["id", "name"], []⟩ : DataFrame) 1 2
        [⟨some "1", [("name", some "A")], 0, none, true⟩] =
      { calls := [], warnings := 1,
        outcome := Except.ok [⟨some "1", [("name", some "A")], 0, none, true⟩] } ∧
    replace_dimension_snapshot (⟨["n"], []⟩ : DataFrame) [[("n", some "x")]] =
      { calls := [], warnings := 1, outcome := Except.ok [[("n", some "x")]] } ∧
    append_fact (⟨["m"], []⟩ : DataFrame) [[("m", some "y")]] =
      { calls := [], warnings := 1, outcome := Except.ok [[("m", some "y")]] } :=
  empty_input_noop "id" ["name"] none _ _ _ 1 2 _ _ _ rfl rfl rfl

/-- C9: on a non-empty candidate, `replace_dimension_snapshot` first issues the
destructive `TRUNCATE ... RESTART IDENTITY` and then the bulk insert, and the
destination afterwards holds exactly the candidate rows. -/
theorem replace_dimension_snapshot_spec (df : DataFrame) (table : List Rw)
    (hne : df.rows ≠ []) :
    replace_dimension_snapshot df table =
      { calls := [Call.truncateTable, Call.appendLoad], warnings := 0,
        outcome := Except.ok df.rows } := by
  unfold replace_dimension_snapshot
  rw [if_neg (by simpa [List.isEmpty_iff] using hne)]

/-- Witness for C9: replacing a one-row table by a one-row candidate. -/
theorem replace_dimension_snapshot_spec_witness :
    replace_dimension_snapshot
        (⟨["n"], [[("n", some "b")]]⟩ : DataFrame) [[("n", some "a")]] =
      { calls := [Call.truncateTable, Call.appendLoad], warnings := 0,
        outcome := Except.ok [[("n", some "b")]] } :=
  replace_dimension_snapshot_spec _ _ (by decide)

/-- C3 (refuted on the code): after a changed row is processed, the closed
version carries `effective_to = NOW()` of the close-out `UPDATE` (load-time
clock, here 11) while its replacement carries `effective_from` = the staging
timestamp (here 10), so the closed record's `effective_to` exceeds the next
record's `effective_from` whenever the load clock runs after the staging
clock — the versions overlap. -/
theorem scd2_upsert_versions_overlap :
    ∃ closed fresh : DimRow,
      (scd2_upsert "id" ["name"] none
          ⟨["id", "name"], [[("id", some "1"), ("name", some "B")]]⟩ 10 11
          [⟨some "1", [("name", some "A")], 0, none, true⟩]).outcome =
        Except.ok [closed, fresh] ∧
      closed.key = fresh.key ∧
      closed.effective_to = some 11 ∧
      fresh.effective_from = 10 ∧
      ¬ closed.effective_to.getD 0 ≤ fresh.effective_from :=
  ⟨⟨some "1", [("name", some "A")], 0, some 11, false⟩,
   ⟨some "1", [("name", some "B")], 10, none, true⟩,
   by decide, rfl, rfl, rfl, by decide⟩

/-- C4 (refuted as stated): staging a snapshot with two rows for key `1`
(`name = "A"` first, `name = "B"` last) writes a staged table containing the
FIRST row, not the last: `drop_duplicates` is called with pandas' default
`keep` policy. -/
theorem scd2_staging_keeps_first_duplicate :
    (scd2_upsert "id" ["name"] none
        ⟨["id", "name"],
          [[("id", some "1"), ("name", some "A")],
           [("id", some "1"), ("name", some "B")]]⟩ 10 11 []).calls =
      [Call.createSchema,
       Call.stageLoad [⟨some "1", [("name", some "A")], 10, none, true⟩],
       Call.closeOutUpdate, Call.insertQuery] := by decide

/-- C8: on a non-empty frame whose columns do not include the natural key,
`scd2_upsert` raises the key error before issuing any connector call: no
staging write, no update, no insert. -/
theorem scd2_upsert_missing_key (kname : String) (tracked : List String)
    (columns : Option (List String)) (df : DataFrame) (st lt : Nat)
    (target : List DimRow)
    (hne : df.rows ≠ []) (hk : kname ∉ df.cols) :
    (scd2_upsert kname tracked columns df st lt target).calls = [] ∧
      ∃ msg, (scd2_upsert kname tracked columns df st lt target).outcome =
        Except.error msg := by
  have hemp : df.rows.isEmpty = false := by simpa [List.isEmpty_iff] using hne
  have hdk : df.cols.contains kname = false := by simpa using hk
  unfold scd2_upsert
  rw [if_neg (by simp [hemp])]
  cases columns with
  | none =>
    dsimp only [projectDf]
    rw [if_neg (by simpa using hdk)]
    exact ⟨rfl, _, rfl⟩
  | some cs =>
    dsimp only [projectDf]
    by_cases hcs : cs.isEmpty = true
    · rw [if_pos hcs]
      dsimp only
      rw [if_neg (by simpa using hdk)]
      exact ⟨rfl, _, rfl⟩
    · rw [if_neg hcs]
      by_cases hall : cs.all (fun c => df.cols.contains c) = true
      · rw [if_pos hall]
        dsimp only
        have hck : cs.contains kname = false := by
          cases hc : cs.contains kname
          · rfl
          · exfalso
            have hmem : kname ∈ cs := by simpa using hc
            have := List.all_eq_true.1 hall kname hmem
            rw [hdk] at this
            cases this
        rw [if_neg (by simpa using hck)]
        exact ⟨rfl, _, rfl⟩
      · rw [if_neg hall]
        exact ⟨rfl, _, rfl⟩

/-- Witness for C8: one data row, no `id` column. -/
theorem scd2_upsert_missing_key_witness :
    (scd2_upsert "id" ["name"] none
        (⟨["name"], [[("name", some "A")]]⟩ : DataFrame) 1 2 []).calls = [] ∧
      ∃ msg, (scd2_upsert "id" ["name"] none
        (⟨["name"], [[("name", some "A")]]⟩ : DataFrame) 1 2 []).outcome =
          Except.error msg :=
  scd2_upsert_missing_key "id" ["name"] none _ 1 2 [] (by decide) (by decide)

theorem closeOut_length (kname : String) (tr : List String) (lt : Nat)
    (staged target : List DimRow) :
    (closeOut kname tr lt staged target).length = target.length := by
  simp [closeOut]

/-- C10: every row the insert step appends to the target carries no
`host_key` and no `listing_key` column: the insert column list is the staged
columns with the surrogate keys removed, whatever the target table. -/
theorem scd2_upsert_never_writes_surrogates (kname : String)
    (tracked : List String) (columns : Option (List String)) (df : DataFrame)
    (st lt : Nat) (target t' : List DimRow) (j : Nat)
    (hres : (scd2_upsert kname tracked columns df st lt target).outcome =
      Except.ok t')
    (hj : target.length ≤ j) (hj2 : j < t'.length) :
    (t'[j]).attrs.lookup "host_key" = none ∧
      (t'[j]).attrs.lookup "listing_key" = none := by
  unfold scd2_upsert at hres
  by_cases hemp : df.rows.isEmpty
  · rw [if_pos hemp] at hres
    cases hres
    omega
  · rw [if_neg hemp] at hres
    cases hpr : projectDf columns df with
    | error e =>
      rw [hpr] at hres
      cases hres
    | ok pdf =>
      rw [hpr] at hres
      dsimp only at hres
      by_cases hkk : pdf.cols.contains kname
      · rw [if_pos hkk] at hres
        dsimp only at hres
        cases hres
        have hj' : (closeOut kname (deriveTracked kname tracked pdf.cols) lt
            (stagedOf kname tracked st pdf) target).length ≤ j := by
          rw [closeOut_length]
          exact hj
        rw [List.getElem_append_right hj']
        have hmem := List.getElem_mem (l := List.map stripRow
          (changedRows kname (deriveTracked kname tracked pdf.cols)
            (closeOut kname (deriveTracked kname tracked pdf.cols) lt
              (stagedOf kname tracked st pdf) target)
            (stagedOf kname tracked st pdf)))
          (n := j - (closeOut kname (deriveTracked kname tracked pdf.cols) lt
            (stagedOf kname tracked st pdf) target).length)
        rcases List.mem_map.1 (hmem (by
          rw [List.length_append, closeOut_length] at hj2
          rw [closeOut_length]
          omega)) with ⟨s, _, heq⟩
        rw [← heq]
        exact ⟨lookup_stripSurrogates_of_removed _ _ (Or.inl rfl),
          lookup_stripSurrogates_of_removed _ _ (Or.inr rfl)⟩
      · rw [if_neg hkk] at hres
        cases hres

/-- Witness for C10: the appended row of a single-row upsert whose staged
frame has a `host_key` column carries no surrogate binding. -/
theorem scd2_upsert_never_writes_surrogates_witness :
    (([⟨some "1", [("name", some "B")], 10, none, true⟩] :
        List DimRow)[0]).attrs.lookup "host_key" = none ∧
      (([⟨some "1", [("name", some "B")], 10, none, true⟩] :
        List DimRow)[0]).attrs.lookup "listing_key" = none :=
  scd2_upsert_never_writes_surrogates "id" ["name"] none
    ⟨["id", "name", "host_key"],
      [[("id", some "1"), ("name", some "B"), ("host_key", some "77")]]⟩
    10 11 [] [⟨some "1", [("name", some "B")], 10, none, true⟩] 0
    (by decide) (by decide) (by decide)

theorem stagedOf_keys_from_df (kname : String) (tracked : List String)
    (st : Nat) (columns : Option (List String)) (df pdf : DataFrame)
    (hpr : projectDf columns df = Except.ok pdf)
    (hk : pdf.cols.contains kname = true)
    (s : DimRow) (hs : s ∈ stagedOf kname tracked st pdf) :
    ∃ r ∈ df.rows, s.key = getCol r kname := by
  rcases stagedOf_mem kname tracked st pdf s hs with ⟨r, hr, rfl⟩
  have hrp : r ∈ pdf.rows := dedupFirst_subset kname pdf.rows r hr
  unfold projectDf at hpr
  cases columns with
  | none =>
    cases hpr
    exact ⟨r, hrp, rfl⟩
  | some cs =>
    dsimp only at hpr
    by_cases hcs : cs.isEmpty = true
    · rw [if_pos hcs] at hpr
      cases hpr
      exact ⟨r, hrp, rfl⟩
    · rw [if_neg hcs] at hpr
      by_cases hall : cs.all (fun c => df.cols.contains c) = true
      · rw [if_pos hall] at hpr
        cases hpr
        rcases List.mem_map.1 hrp with ⟨r1, hr1, rfl⟩
        refine ⟨r1, hr1, ?_⟩
        show getCol (cs.map fun c => (c, getCol r1 c)) kname = getCol r1 kname
        rw [getCol_map_cols]
        rw [show (cs.contains kname) = true from hk]
        simp
      · rw [if_neg hall] at hpr
        cases hpr

/-- C6: a current target record whose natural key matches no row of the
candidate frame is left entirely unchanged by `scd2_upsert`: it survives at
its position with every field intact (still current, `effective_to` still
unset) — absence from a snapshot is not deletion. -/
theorem scd2_upsert_leaves_absent_keys_untouched (kname : String)
    (tracked : List String) (columns : Option (List String)) (df : DataFrame)
    (st lt : Nat) (target t' : List DimRow) (i : Nat)
    (hres : (scd2_upsert kname tracked columns df st lt target).outcome =
      Except.ok t')
    (hi : i < target.length)
    (hcur : (target[i]).is_current = true)
    (habs : ∀ r ∈ df.rows, keyEq (target[i]).key (getCol r kname) = false) :
    t'[i]? = some target[i] := by
  unfold scd2_upsert at hres
  by_cases hemp : df.rows.isEmpty
  · rw [if_pos hemp] at hres
    cases hres
    exact List.getElem?_eq_getElem hi
  · rw [if_neg hemp] at hres
    cases hpr : projectDf columns df with
    | error e =>
      rw [hpr] at hres
      cases hres
    | ok pdf =>
      rw [hpr] at hres
      dsimp only at hres
      by_cases hkk : pdf.cols.contains kname
      · rw [if_pos hkk] at hres
        dsimp only at hres
        cases hres
        have hlen : i < (closeOut kname (deriveTracked kname tracked pdf.cols) lt
            (stagedOf kname tracked st pdf) target).length := by
          rw [closeOut_length]
          exact hi
        rw [List.getElem?_append, if_pos hlen]
        unfold closeOut
        rw [List.getElem?_map, List.getElem?_eq_getElem hi]
        have hid : closeFn kname (deriveTracked kname tracked pdf.cols) lt
            (stagedOf kname tracked st pdf) (target[i]) = target[i] := by
          unfold closeFn
          have hany : ((stagedOf kname tracked st pdf).any
              (fun s => keyEq (target[i]).key s.key &&
                rowDiff kname (deriveTracked kname tracked pdf.cols)
                  (target[i]) s)) = false := by
            rw [List.any_eq_false]
            intro s hs
            rcases stagedOf_keys_from_df kname tracked st columns df pdf hpr
              hkk s hs with ⟨r, hrdf, hkey⟩
            rw [hkey, habs r hrdf]
            simp
          rw [hany]
          simp
        simp [hid]
      · rw [if_neg hkk] at hres
        cases hres

/-- Witness for C6: key `2` is current in the target and absent from the
snapshot; its record survives unchanged at index 0. -/
theorem scd2_upsert_leaves_absent_keys_untouched_witness :
    (([⟨some "2", [("name", some "Z")], 3, none, true⟩,
       ⟨some "1", [("name", some "B")], 10, none, true⟩] : List DimRow))[0]? =
      some (([⟨some "2", [("name", some "Z")], 3, none, true⟩] :
        List DimRow)[0]) :=
  scd2_upsert_leaves_absent_keys_untouched "id" ["name"] none
    ⟨["id", "name"], [[("id", some "1"), ("name", some "B")]]⟩ 10 11
    [⟨some "2", [("name", some "Z")], 3, none, true⟩]
    [⟨some "2", [("name", some "Z")], 3, none, true⟩,
     ⟨some "1", [("name", some "B")], 10, none, true⟩] 0
    (by decide) (by decide) (by decide) (by decide)

theorem dedupFirstAux_keeps_first (kname : String) (v : Val) :
    ∀ (rows : List Rw) (seen : List Val) (r0 : Rw),
      seen.contains v = false →
      rows.find? (fun r => getCol r kname == v) = some r0 →
      (dedupFirstAux kname seen rows).filter
        (fun r => getCol r kname == v) = [r0]
  | [], _, _, _, h => by simp [List.find?] at h
  | r :: rs, seen, r0, hseen, h => by
    rw [List.find?_cons] at h
    unfold dedupFirstAux
    by_cases hp : (getCol r kname == v) = true
    · rw [hp] at h
      have hr0 : r = r0 := by
        simpa using h
      have hv : getCol r kname = v := by simpa using hp
      rw [if_neg (by rw [hv, hseen]; simp)]
      rw [List.filter_cons, if_pos hp]
      have hrest : (dedupFirstAux kname (getCol r kname :: seen) rs).filter
          (fun x => getCol x kname == v) = [] := by
        rw [List.filter_eq_nil_iff]
        intro x hx
        have hns := (dedupFirstAux_spec kname rs (getCol r kname :: seen)).1 x hx
        simp only [List.contains_cons, Bool.or_eq_false_iff] at hns
        rw [hv] at hns
        simpa using hns.1
      rw [hrest, hr0]
    · have hpf : (getCol r kname == v) = false := by simpa using hp
      rw [hpf] at h
      by_cases hc : seen.contains (getCol r kname) = true
      · rw [if_pos hc]
        exact dedupFirstAux_keeps_first kname v rs seen r0 hseen h
      · rw [if_neg hc, List.filter_cons, if_neg (by simp [hp])]
        have hseen2 : (getCol r kname :: seen).contains v = false := by
          simp only [List.contains_cons, Bool.or_eq_false_iff]
          refine ⟨?_, hseen⟩
          simp only [beq_eq_false_iff_ne] at hpf ⊢
          exact fun hvv => hpf hvv.symm
        exact dedupFirstAux_keeps_first kname v rs _ r0 hseen2 h

/-- C4 (amended): deduplication by natural key during staging keeps the FIRST
occurrence of each key value in the provided ordering and silently drops the
later duplicates: among the deduplicated rows, the rows carrying key value `v`
are exactly the first input row carrying `v`. -/
theorem dedupFirst_keeps_first (kname : String) (rows : List Rw) (v : Val)
    (r0 : Rw)
    (h : rows.find? (fun r => getCol r kname == v) = some r0) :
    (dedupFirst kname rows).filter (fun r => getCol r kname == v) = [r0] :=
  dedupFirstAux_keeps_first kname v rows [] r0 rfl h

/-- Witness for C4 (amended): two rows for key `1`; dedup keeps exactly the
first of them. -/
theorem dedupFirst_keeps_first_witness :
    (dedupFirst "id"
        [[("id", some "1"), ("name", some "A")],
         [("id", some "1"), ("name", some "B")]]).filter
      (fun r => getCol r "id" == some "1") =
      [[("id", some "1"), ("name", some "A")]] :=
  dedupFirst_keeps_first "id"
    [[("id", some "1"), ("name", some "A")],
     [("id", some "1"), ("name", some "B")]]
    (some "1") [("id", some "1"), ("name", some "A")] (by decide)

/-! ## Idempotence of a second, identical run -/

theorem any_congr_mem {α : Type} (f g : α → Bool) :
    ∀ (l : List α), (∀ x ∈ l, f x = g x) → l.any f = l.any g
  | [], _ => rfl
  | a :: t, h => by
    rw [List.any_cons, List.any_cons, h a (List.mem_cons_self a t),
      any_congr_mem f g t (fun x hx => h x (List.mem_cons_of_mem a hx))]

theorem flatMap_eq_nil {α β : Type} (f : α → List β) :
    ∀ (l : List α), (∀ x ∈ l, f x = []) → l.flatMap f = []
  | [], _ => rfl
  | a :: t, h => by
    rw [List.flatMap_cons, h a (List.mem_cons_self a t), List.nil_append]
    exact flatMap_eq_nil f t (fun x hx => h x (List.mem_cons_of_mem a hx))

theorem getCol_dimRowView (kname : String) (d : DimRow) (c : String) :
    getCol (dimRowView kname d) c =
      if c == kname then d.key
      else if c == "effective_from" then some (toString d.effective_from)
      else if c == "effective_to" then d.effective_to.map toString
      else if c == "is_current" then some (toString d.is_current)
      else getCol d.attrs c := by
  unfold dimRowView
  rw [getCol_cons, getCol_cons, getCol_cons, getCol_cons]

/-- Re-stamping a staged row with a different run timestamp changes no tracked
column of the comparison provided `effective_from` itself is not tracked
(or coincides with the natural-key column, which shadows it). -/
theorem rowDiff_retime (kname : String) (tr : List String) (d s : DimRow)
    (st2 : Nat) (htr : ∀ c ∈ tr, c = kname ∨ c ≠ "effective_from") :
    rowDiff kname tr d { s with effective_from := st2 } =
      rowDiff kname tr d s := by
  unfold rowDiff diffCondition
  apply any_congr_mem
  intro c hc
  have hview : getCol (dimRowView kname { s with effective_from := st2 }) c =
      getCol (dimRowView kname s) c := by
    rw [getCol_dimRowView, getCol_dimRowView]
    by_cases h1 : c == kname
    · simp only [h1, if_true]
    · simp only [h1, Bool.false_eq_true, if_false]
      by_cases h2 : c == "effective_from"
      · exfalso
        rcases htr c hc with h3 | h3
        · exact h1 (by simp [h3])
        · exact h3 (by simpa using h2)
      · simp only [h2, Bool.false_eq_true, if_false]
  rw [hview]

/-- A staged row with no surrogate-key cell differs from its own re-insert
image on no tracked column: stripping `host_key`/`listing_key` removes only
`NULL` cells. -/
theorem rowDiff_strip_self (kname : String) (tr : List String) (s : DimRow)
    (hhk : getCol s.attrs "host_key" = none)
    (hlk : getCol s.attrs "listing_key" = none) :
    rowDiff kname tr (stripRow s) s = false := by
  unfold rowDiff diffCondition
  rw [List.any_eq_false]
  intro c hc
  have hview : getCol (dimRowView kname (stripRow s)) c =
      getCol (dimRowView kname s) c := by
    rw [getCol_dimRowView, getCol_dimRowView]
    by_cases h1 : c == kname
    · simp only [h1, if_true]; rfl
    · simp only [h1, Bool.false_eq_true, if_false]
      by_cases h2 : c == "effective_from"
      · simp only [h2, if_true]; rfl
      · simp only [h2, Bool.false_eq_true, if_false]
        by_cases h3 : c == "effective_to"
        · simp only [h3, if_true]; rfl
        · simp only [h3, Bool.false_eq_true, if_false]
          by_cases h4 : c == "is_current"
          · simp only [h4, if_true]; rfl
          · simp only [h4, Bool.false_eq_true, if_false]
            show getCol (stripSurrogates s.attrs) c = getCol s.attrs c
            by_cases h5 : c = "host_key"
            · rw [getCol_stripSurrogates_of_removed _ _ (Or.inl h5), h5, hhk]
            · by_cases h6 : c = "listing_key"
              · rw [getCol_stripSurrogates_of_removed _ _ (Or.inr h6), h6, hlk]
              · exact getCol_stripSurrogates s.attrs c h5 h6
  rw [hview]
  simp

theorem eq_of_pairwise_keys :
    ∀ {l : List DimRow}, l.Pairwise (fun a b => a.key ≠ b.key) →
      ∀ {a b : DimRow}, a ∈ l → b ∈ l → a.key = b.key → a = b
  | [], _, a, _, ha, _, _ => absurd ha (List.not_mem_nil a)
  | x :: t, hp, a, b, ha, hb, hk => by
    rcases List.pairwise_cons.1 hp with ⟨hx, ht⟩
    rcases List.mem_cons.1 ha with rfl | ha2
    · rcases List.mem_cons.1 hb with rfl | hb2
      · rfl
      · exact absurd hk (hx b hb2)
    · rcases List.mem_cons.1 hb with rfl | hb2
      · exact absurd hk.symm (hx a ha2)
      · exact eq_of_pairwise_keys ht ha2 hb2 hk

/-- Every row still current after a run and key-matching a staged row agrees
with it on all tracked columns: either it is an untouched original (so the
close-out condition failed) or it is the freshly inserted image of that very
staged row. -/
theorem upsert_result_current_nodiff (kname : String) (tr : List String)
    (lt : Nat) (staged target : List DimRow)
    (hkeys : staged.Pairwise (fun a b => a.key ≠ b.key))
    (hstrip : ∀ s ∈ staged, rowDiff kname tr (stripRow s) s = false)
    {d : DimRow}
    (hd : d ∈ closeOut kname tr lt staged target ++
      (changedRows kname tr (closeOut kname tr lt staged target) staged).map
        stripRow)
    (hcur : d.is_current = true)
    {s : DimRow} (hs : s ∈ staged) (hk : keyEq d.key s.key = true) :
    rowDiff kname tr d s = false := by
  rw [changedRows_closeOut] at hd
  rcases List.mem_append.1 hd with hd | hd
  · exact (closeOut_current hd hcur).2 s hs hk
  · rcases List.mem_map.1 hd with ⟨s0, hs0f, rfl⟩
    have hs0 : s0 ∈ staged := (List.mem_filter.1 hs0f).1
    have hkey : s0.key = s.key := eq_of_keyEq (by rw [← stripRow_key]; exact hk)
    have hss : s0 = s := eq_of_pairwise_keys hkeys hs0 hs hkey
    rw [hss]
    exact hstrip s hs

/-- After a run, every staged row with a non-`NULL` key has a current
counterpart in the result: either an untouched original survived the
close-out, or the row itself was inserted. -/
theorem upsert_result_has_current (kname : String) (tr : List String)
    (lt : Nat) (staged target : List DimRow)
    {s : DimRow} (hs : s ∈ staged) (hsome : ∃ x, s.key = some x)
    (hcurstaged : s.is_current = true) :
    ∃ d ∈ closeOut kname tr lt staged target ++
      (changedRows kname tr (closeOut kname tr lt staged target) staged).map
        stripRow,
      d.is_current = true ∧ keyEq d.key s.key = true := by
  by_cases hm :
    (currentMatches (closeOut kname tr lt staged target) s).isEmpty = true
  · refine ⟨stripRow s, ?_, ?_, ?_⟩
    · apply List.mem_append_right
      apply List.mem_map_of_mem
      rw [changedRows_closeOut]
      exact List.mem_filter.2 ⟨hs, hm⟩
    · rw [stripRow_is_current]; exact hcurstaged
    · rw [stripRow_key]
      rcases hsome with ⟨x, hx⟩
      rw [hx]
      exact keyEq_some_self x
  · have hne : currentMatches (closeOut kname tr lt staged target) s ≠ [] := by
      intro h0
      exact hm (by rw [h0]; rfl)
    rcases List.exists_mem_of_ne_nil _ hne with ⟨d, hd⟩
    have hd2 := hd
    unfold currentMatches at hd2
    rcases List.mem_filter.1 hd2 with ⟨hmem, hcond⟩
    simp only [Bool.and_eq_true] at hcond
    exact ⟨d, List.mem_append_left _ hmem, hcond.1, hcond.2⟩

/-- Core of the idempotence argument: running close-out and insert a second
time with the same staged snapshot (re-stamped with a later run timestamp)
against the result of the first run changes nothing: the second close-out is
the identity and the second `changed` CTE is empty. -/
theorem upsert_core_idempotent (kname : String) (tr : List String)
    (lt1 lt2 st2 : Nat) (staged target : List DimRow)
    (hkeys : staged.Pairwise (fun a b => a.key ≠ b.key))
    (hsome : ∀ s ∈ staged, ∃ x, s.key = some x)
    (hflags : ∀ s ∈ staged, s.is_current = true)
    (hstrip : ∀ s ∈ staged, rowDiff kname tr (stripRow s) s = false)
    (hretime : ∀ d s : DimRow,
      rowDiff kname tr d { s with effective_from := st2 } =
        rowDiff kname tr d s) :
    closeOut kname tr lt2 (staged.map (fun s => { s with effective_from := st2 }))
        (closeOut kname tr lt1 staged target ++
          (changedRows kname tr (closeOut kname tr lt1 staged target) staged).map
            stripRow) =
      closeOut kname tr lt1 staged target ++
        (changedRows kname tr (closeOut kname tr lt1 staged target) staged).map
          stripRow ∧
    changedRows kname tr
        (closeOut kname tr lt1 staged target ++
          (changedRows kname tr (closeOut kname tr lt1 staged target) staged).map
            stripRow)
        (staged.map (fun s => { s with effective_from := st2 })) = [] := by
  set t1 := closeOut kname tr lt1 staged target ++
    (changedRows kname tr (closeOut kname tr lt1 staged target) staged).map
      stripRow with ht1
  have hnodiff : ∀ d ∈ t1, d.is_current = true →
      ∀ s ∈ staged, keyEq d.key s.key = true → rowDiff kname tr d s = false :=
    fun d hd hcur s hs hk =>
      upsert_result_current_nodiff kname tr lt1 staged target hkeys hstrip
        hd hcur hs hk
  constructor
  · unfold closeOut
    have hid : ∀ d ∈ t1,
        closeFn kname tr lt2
          (staged.map (fun s => { s with effective_from := st2 })) d = d := by
      intro d hd
      unfold closeFn
      by_cases hcur : d.is_current = true
      · have hany : ((staged.map (fun s => { s with effective_from := st2 })).any
            (fun s => keyEq d.key s.key && rowDiff kname tr d s)) = false := by
          rw [List.any_eq_false]
          intro s2 hs2
          rcases List.mem_map.1 hs2 with ⟨s, hs, rfl⟩
          by_cases hke : keyEq d.key s.key = true
          · have hnd : rowDiff kname tr d { s with effective_from := st2 } =
                false := by
              rw [hretime d s]
              exact hnodiff d hd hcur s hs hke
            simp [hnd]
          · have hke2 : keyEq d.key ({ s with effective_from := st2 } :
                DimRow).key = false := by
              simpa using hke
            simp [hke2]
        rw [hany]
        simp
      · have hcf : d.is_current = false := by simpa using hcur
        rw [hcf]
        simp
    calc t1.map (closeFn kname tr lt2
          (staged.map (fun s => { s with effective_from := st2 })))
        = t1.map id := List.map_congr_left hid
      _ = t1 := List.map_id t1
  · unfold changedRows
    apply flatMap_eq_nil
    intro s2 hs2
    rcases List.mem_map.1 hs2 with ⟨s, hs, rfl⟩
    have hmatch : ∃ d ∈ t1, d.is_current = true ∧ keyEq d.key s.key = true :=
      upsert_result_has_current kname tr lt1 staged target hs (hsome s hs)
        (hflags s hs)
    rcases hmatch with ⟨d, hd, hdcur, hdk⟩
    have hdm : d ∈ currentMatches t1 ({ s with effective_from := st2 } :
        DimRow) := by
      unfold currentMatches
      refine List.mem_filter.2 ⟨hd, ?_⟩
      rw [hdcur]
      show (true && keyEq d.key s.key) = true
      rw [hdk]
      rfl
    have hnonempty : (currentMatches t1 ({ s with effective_from := st2 } :
        DimRow)).isEmpty = false := by
      cases hcm : currentMatches t1 ({ s with effective_from := st2 } : DimRow)
      · rw [hcm] at hdm; exact absurd hdm (List.not_mem_nil d)
      · rfl
    have hfil : (currentMatches t1 ({ s with effective_from := st2 } :
        DimRow)).filter
        (fun d => rowDiff kname tr d { s with effective_from := st2 }) = [] := by
      rw [List.filter_eq_nil_iff]
      intro d2 hd2
      have hd2' := hd2
      unfold currentMatches at hd2'
      rcases List.mem_filter.1 hd2' with ⟨hd2mem, hd2cond⟩
      simp only [Bool.and_eq_true] at hd2cond
      have hk2 : keyEq d2.key s.key = true := hd2cond.2
      have : rowDiff kname tr d2 { s with effective_from := st2 } = false := by
        rw [hretime d2 s]
        exact hnodiff d2 hd2mem hd2cond.1 s hs hk2
      simp [this]
    simp only [hnonempty, Bool.false_eq_true, if_false, hfil, List.map_nil]

theorem projectDf_rows_getCol_none (columns : Option (List String))
    (df pdf : DataFrame) (c : String)
    (hpr : projectDf columns df = Except.ok pdf)
    (hwf : ∀ r ∈ df.rows, ∀ p ∈ r, p.1 ∈ df.cols)
    (hc : c ∉ df.cols)
    (r : Rw) (hr : r ∈ pdf.rows) : getCol r c = none := by
  unfold projectDf at hpr
  cases columns with
  | none =>
    cases hpr
    exact getCol_eq_none_of_names r c
      (fun p hp h => hc (h ▸ hwf r hr p hp))
  | some cs =>
    dsimp only at hpr
    by_cases hcs : cs.isEmpty = true
    · rw [if_pos hcs] at hpr
      cases hpr
      exact getCol_eq_none_of_names r c
        (fun p hp h => hc (h ▸ hwf r hr p hp))
    · rw [if_neg hcs] at hpr
      by_cases hall : (cs.all fun c2 => df.cols.contains c2) = true
      · rw [if_pos hall] at hpr
        cases hpr
        rcases List.mem_map.1 hr with ⟨r1, _, rfl⟩
        rw [getCol_map_cols]
        have hccs : cs.contains c = false := by
          cases h2 : cs.contains c
          · rfl
          · exact absurd
              (by simpa using List.all_eq_true.1 hall c (by simpa using h2))
              hc
        rw [hccs]
        simp
      · rw [if_neg hall] at hpr
        cases hpr

theorem stagedOf_attrs_none (kname : String) (tracked : List String) (st : Nat)
    (columns : Option (List String)) (df pdf : DataFrame) (c : String)
    (hpr : projectDf columns df = Except.ok pdf)
    (hwf : ∀ r ∈ df.rows, ∀ p ∈ r, p.1 ∈ df.cols)
    (hc : c ∉ df.cols)
    (s : DimRow) (hs : s ∈ stagedOf kname tracked st pdf) :
    getCol s.attrs c = none := by
  rcases stagedOf_mem kname tracked st pdf s hs with ⟨r, hr, rfl⟩
  have hrp : r ∈ pdf.rows := dedupFirst_subset kname pdf.rows r hr
  show getCol ((stagedDataCols kname
    (widenCols pdf.cols (deriveTracked kname tracked pdf.cols))).map
      (fun c2 => (c2, getCol r c2))) c = none
  rw [getCol_map_cols]
  cases hdc : (stagedDataCols kname
      (widenCols pdf.cols (deriveTracked kname tracked pdf.cols))).contains c with
  | false => simp
  | true =>
    rw [if_pos rfl]
    exact projectDf_rows_getCol_none columns df pdf c hpr hwf hc r hrp

theorem deriveTracked_no_eff_from (kname : String) (tracked : List String)
    (cols : List String) (hef : "effective_from" ∉ tracked) :
    ∀ c ∈ deriveTracked kname tracked cols, c = kname ∨ c ≠ "effective_from" := by
  intro c hc
  unfold deriveTracked at hc
  by_cases ht : tracked.isEmpty = true
  · rw [if_pos ht] at hc
    rcases List.mem_filter.1 hc with ⟨_, hcond⟩
    right
    simp only [Bool.and_eq_true, bne_iff_ne, ne_eq, Bool.not_eq_true] at hcond
    intro hc2
    have := hcond.2
    rw [hc2] at this
    simp [versioningCols] at this
  · rw [if_neg ht] at hc
    exact Or.inr (fun h2 => hef (h2 ▸ hc))

theorem stagedOf_retime (kname : String) (tracked : List String)
    (st1 st2 : Nat) (pdf : DataFrame) :
    stagedOf kname tracked st2 pdf =
      (stagedOf kname tracked st1 pdf).map
        (fun d => { d with effective_from := st2 }) := by
  unfold stagedOf
  rw [List.map_map]
  apply List.map_congr_left
  intro r _
  rfl

/-- C2: running `scd2_upsert` a second time in immediate succession with the
same input dataframe, natural key and tracked columns, with no intervening
change to the target, leaves the target table identical: the second close-out
`UPDATE` matches no rows and the second insert `INSERT` adds no rows.  Side
conditions: the frame binds only its declared columns, every natural-key cell
is non-`NULL`, the frame declares no surrogate-key column, and
`effective_from` is not passed as a tracked column. -/
theorem scd2_upsert_idempotent (kname : String) (tracked : List String)
    (columns : Option (List String)) (df : DataFrame)
    (st1 lt1 st2 lt2 : Nat) (target t1 : List DimRow)
    (hrun1 : (scd2_upsert kname tracked columns df st1 lt1 target).outcome =
      Except.ok t1)
    (hwf : ∀ r ∈ df.rows, ∀ p ∈ r, p.1 ∈ df.cols)
    (hkeysnn : ∀ r ∈ df.rows, getCol r kname ≠ none)
    (hhk : "host_key" ∉ df.cols) (hlk : "listing_key" ∉ df.cols)
    (hef : "effective_from" ∉ tracked) :
    (scd2_upsert kname tracked columns df st2 lt2 t1).outcome =
      Except.ok t1 := by
  unfold scd2_upsert at hrun1 ⊢
  by_cases hemp : df.rows.isEmpty
  · rw [if_pos hemp] at hrun1 ⊢
  · rw [if_neg hemp] at hrun1 ⊢
    cases hpr : projectDf columns df with
    | error e =>
      rw [hpr] at hrun1
      cases hrun1
    | ok pdf =>
      rw [hpr] at hrun1
      dsimp only at hrun1 ⊢
      by_cases hkk : pdf.cols.contains kname
      · rw [if_pos hkk] at hrun1 ⊢
        dsimp only at hrun1 ⊢
        cases hrun1
        rw [stagedOf_retime kname tracked st1 st2 pdf]
        have hsomeS : ∀ s ∈ stagedOf kname tracked st1 pdf,
            ∃ x, s.key = some x := by
          intro s hs
          rcases stagedOf_keys_from_df kname tracked st1 columns df pdf hpr
            hkk s hs with ⟨r, hrdf, hkey⟩
          rw [hkey]
          exact Option.ne_none_iff_exists'.1 (hkeysnn r hrdf)
        have hstripS : ∀ s ∈ stagedOf kname tracked st1 pdf,
            rowDiff kname (deriveTracked kname tracked pdf.cols)
              (stripRow s) s = false := by
          intro s hs
          exact rowDiff_strip_self _ _ s
            (stagedOf_attrs_none kname tracked st1 columns df pdf "host_key"
              hpr hwf hhk s hs)
            (stagedOf_attrs_none kname tracked st1 columns df pdf "listing_key"
              hpr hwf hlk s hs)
        have hretimeS : ∀ d s : DimRow,
            rowDiff kname (deriveTracked kname tracked pdf.cols) d
                { s with effective_from := st2 } =
              rowDiff kname (deriveTracked kname tracked pdf.cols) d s :=
          fun d s => rowDiff_retime kname _ d s st2
            (deriveTracked_no_eff_from kname tracked pdf.cols hef)
        have hcore := upsert_core_idempotent kname
          (deriveTracked kname tracked pdf.cols) lt1 lt2 st2
          (stagedOf kname tracked st1 pdf) target
          (stagedOf_pairwise_keys kname tracked st1 pdf)
          hsomeS
          (fun s hs => (stagedOf_flags kname tracked st1 pdf s hs).1)
          hstripS
          hretimeS
        rw [hcore.1, hcore.2, List.map_nil, List.append_nil]
      · rw [if_neg hkk] at hrun1
        cases hrun1

/-- Witness for C2: re-running the one-row upsert of the C1 scenario on its
own result is a no-op. -/
theorem scd2_upsert_idempotent_witness :
    (scd2_upsert "id" ["name"] none
        ⟨["id", "name"], [[("id", some "1"), ("name", some "B")]]⟩ 20 21
        [⟨some "1", [("name", some "A")], 0, some 11, false⟩,
         ⟨some "1", [("name", some "B")], 10, none, true⟩]).outcome =
      Except.ok
        [⟨some "1", [("name", some "A")], 0, some 11, false⟩,
         ⟨some "1", [("name", some "B")], 10, none, true⟩] :=
  scd2_upsert_idempotent "id" ["name"] none
    ⟨["id", "name"], [[("id", some "1"), ("name", some "B")]]⟩ 10 11 20 21
    [⟨some "1", [("name", some "A")], 0, none, true⟩]
    [⟨some "1", [("name", some "A")], 0, some 11, false⟩,
     ⟨some "1", [("name", some "B")], 10, none, true⟩]
    (by decide) (by decide) (by decide) (by decide) (by decide) (by decide)
